import Mathlib

/-!
# A verification development for the `redder` key/value server

Shallow embedding of the RESP codec (`src/protocol.rs`), the dataset layer
(`src/database.rs`), the command-argument parser and the GET/SET handlers
(`src/connection.rs`), and the RDB snapshot decoder (`src/rdb.rs`).

Byte streams are modelled as `List Nat` (each element a byte value); the
fallible readers become state-passing functions `Bytes → Except Err (α × Bytes)`
where the returned list is the unconsumed remainder of the stream, and running
out of input models the buffered reader's `UnexpectedEof`.  Hash maps become
functions `Bytes → Option α` with pointwise insert/remove, which matches the
lookup/insert/remove semantics of `HashMap`.  Clock reads (`SystemTime::now()`
/ `Instant::now()`) become an explicit `now : Nat` parameter measured in
milliseconds since the UNIX epoch.
-/

/-- Byte strings: lists of byte values. -/
abbrev Bytes := List Nat

/-- Error kinds produced by the embedded readers, covering `io::ErrorKind`
(`UnexpectedEof`, `InvalidData`) and the distinct `anyhow::ensure!` failures of
`read_rdb`. -/
inductive Err where
  | eof
  | invalidData
  | badMagic
  | badVersion
  | badOpcode
  | notDb0
  | notStringValue
  deriving DecidableEq, Repr

/-! ## Buffered reader primitives (`src/buf_reader.rs`)

The Rust readers refill a buffer from the underlying source; a read that needs
more bytes than the whole stream holds fails with `UnexpectedEof`.  Modelling
the stream as the complete sequence of bytes the source will ever produce, the
primitives become total functions on `Bytes`. -/

/-- `read_u8`: consume one byte, `UnexpectedEof` on an exhausted stream. -/
def read_u8 : Bytes → Except Err (Nat × Bytes)
  | [] => .error .eof
  | b :: rest => .ok (b, rest)

/-- `read_bytes(len)`: consume exactly `len` bytes. -/
def read_bytes (n : Nat) (s : Bytes) : Except Err (Bytes × Bytes) :=
  if s.length < n then .error .eof else .ok (s.take n, s.drop n)

/-- Little-endian value of a byte list (first byte least significant),
as computed by `get_u32_le` / `get_u64_le` on the consumed bytes. -/
def le_value (l : Bytes) : Nat := l.foldr (fun b acc => b + 256 * acc) 0

/-- `read_u16`: two bytes, little-endian. -/
def read_u16 (s : Bytes) : Except Err (Nat × Bytes) :=
  match read_bytes 2 s with
  | .error e => .error e
  | .ok (b, rest) => .ok (le_value b, rest)

/-- `read_u32`: four bytes, little-endian. -/
def read_u32 (s : Bytes) : Except Err (Nat × Bytes) :=
  match read_bytes 4 s with
  | .error e => .error e
  | .ok (b, rest) => .ok (le_value b, rest)

/-- `read_u64`: eight bytes, little-endian. -/
def read_u64 (s : Bytes) : Except Err (Nat × Bytes) :=
  match read_bytes 8 s with
  | .error e => .error e
  | .ok (b, rest) => .ok (le_value b, rest)

/-! ## UTF-8 validity (Rust's `String::from_utf8` acceptance) -/

/-- A UTF-8 continuation byte: `0x80..=0xBF`. -/
def utf8_cont (b : Nat) : Bool := 128 ≤ b && b ≤ 191

/-- Fuel-indexed core of the UTF-8 validity check; one unit of fuel is spent
per scalar and every scalar consumes at least one byte, so fuel equal to the
list length never runs out. -/
def valid_utf8_core : Nat → Bytes → Bool
  | _, [] => true
  | 0, _ :: _ => false
  | fuel + 1, b :: rest =>
    if b ≤ 127 then valid_utf8_core fuel rest
    else if b ≤ 193 then false
    else if b ≤ 223 then
      match rest with
      | c :: r2 => utf8_cont c && valid_utf8_core fuel r2
      | [] => false
    else if b ≤ 239 then
      match rest with
      | c :: d :: r2 =>
        (if b = 224 then 160 ≤ c && c ≤ 191
         else if b = 237 then 128 ≤ c && c ≤ 159
         else utf8_cont c) && (utf8_cont d && valid_utf8_core fuel r2)
      | _ => false
    else if b ≤ 244 then
      match rest with
      | c :: d :: e :: r2 =>
        (if b = 240 then 144 ≤ c && c ≤ 191
         else if b = 244 then 128 ≤ c && c ≤ 143
         else utf8_cont c) && (utf8_cont d && (utf8_cont e && valid_utf8_core fuel r2))
      | _ => false
    else false

/-- Standard UTF-8 validity of a byte sequence, exactly the sequences
`String::from_utf8` accepts: 1-byte `00..7F`; 2-byte `C2..DF` + cont; 3-byte
`E0 A0..BF`, `E1..EC` + cont, `ED 80..9F`, `EE..EF` + cont, each + cont;
4-byte `F0 90..BF`, `F1..F3` + cont, `F4 80..8F`, each + cont + cont. -/
def valid_utf8 (s : Bytes) : Bool := valid_utf8_core s.length s

/-! ## ASCII decimal integers -/

/-- Accumulating ASCII-decimal digit parse, as `from_str_radix` folds digits. -/
def parse_digits_aux : Nat → Bytes → Option Nat
  | acc, [] => some acc
  | acc, b :: rest =>
    if 48 ≤ b && b ≤ 57 then parse_digits_aux (acc * 10 + (b - 48)) rest
    else none

/-- The optional leading `+` accepted by Rust's unsigned `from_str`. -/
def strip_plus_sign (s : Bytes) : Bytes :=
  match s with
  | 43 :: rest => rest
  | _ => s

/-- Rust `str::parse::<u64>` / `parse::<usize>` (64-bit target) on the bytes
of a string: an optional leading `+`, then one or more ASCII digits, failing
on overflow past `2^64 - 1`. -/
def parse_usize (s : Bytes) : Option Nat :=
  match strip_plus_sign s with
  | [] => none
  | _ :: _ =>
    match parse_digits_aux 0 (strip_plus_sign s) with
    | some v => if v < 2 ^ 64 then some v else none
    | none => none

/-- Fuel-indexed decimal printer; with fuel above `n` it yields the decimal
digits of `n`, most significant first, as ASCII bytes. -/
def nat_to_decimal_core : Nat → Nat → Bytes
  | 0, _ => []
  | fuel + 1, n =>
    if n < 10 then [n + 48]
    else nat_to_decimal_core fuel (n / 10) ++ [n % 10 + 48]

/-- The bytes of Rust's `n.to_string()` (`n + 1` always exceeds the number of
divisions by ten that printing `n` needs). -/
def nat_to_decimal (n : Nat) : Bytes := nat_to_decimal_core (n + 1) n

/-! ## RESP codec (`src/protocol.rs`) -/

/-- A decoded RESP value.  The source's `RedisValue::Array` carries a stream
of the remaining elements; the embedding keeps the announced element count
(the decoder is streaming and materializes nothing further). -/
inductive RedisValue where
  | string (s : Bytes)
  | arrayHeader (n : Nat)
  deriving DecidableEq, Repr

/-- `read_line_bytes`: all bytes before the first `\r\n`, consuming the
delimiter; `UnexpectedEof` when the stream ends without one. -/
def read_line_bytes : Bytes → Except Err (Bytes × Bytes)
  | [] => .error .eof
  | b :: rest =>
    if b = 13 ∧ rest.head? = some 10 then .ok ([], rest.tail)
    else
      match read_line_bytes rest with
      | .ok (line, r) => .ok (b :: line, r)
      | .error e => .error e

/-- `read_line`: a CRLF-terminated line decoded by `String::from_utf8`
(`InvalidData` on invalid UTF-8); the string's bytes. -/
def read_line (s : Bytes) : Except Err (Bytes × Bytes) :=
  match read_line_bytes s with
  | .error e => .error e
  | .ok (line, rest) =>
    if valid_utf8 line then .ok (line, rest) else .error .invalidData

/-- `parse_int::<usize>`: `read_line` then `str::parse`. -/
def parse_int_usize (s : Bytes) : Except Err (Nat × Bytes) :=
  match read_line s with
  | .error e => .error e
  | .ok (line, rest) =>
    match parse_usize line with
    | some n => .ok (n, rest)
    | none => .error .invalidData

/-- `RedisBufStream::parse_bulk_string`: length line, `len` payload bytes, a
mandatory trailing CRLF, then the `String::from_utf8` conversion. -/
def parse_bulk_string (s : Bytes) : Except Err (Bytes × Bytes) :=
  match parse_int_usize s with
  | .error e => .error e
  | .ok (len, r1) =>
    match read_bytes len r1 with
    | .error e => .error e
    | .ok (line, r2) =>
      match read_bytes 2 r2 with
      | .error e => .error e
      | .ok (crlf, r3) =>
        if crlf = [13, 10] then
          if valid_utf8 line then .ok (line, r3) else .error .invalidData
        else .error .invalidData

/-- `read_value`: dispatch on the type byte — `+` simple string, `$` bulk
string, `*` array header, anything else `InvalidData`. -/
def read_value (s : Bytes) : Except Err (RedisValue × Bytes) :=
  match read_u8 s with
  | .error e => .error e
  | .ok (b, rest) =>
    if b = 43 then
      match read_line rest with
      | .error e => .error e
      | .ok (line, r) => .ok (.string line, r)
    else if b = 36 then
      match parse_bulk_string rest with
      | .error e => .error e
      | .ok (line, r) => .ok (.string line, r)
    else if b = 42 then
      match parse_int_usize rest with
      | .error e => .error e
      | .ok (len, r) => .ok (.arrayHeader len, r)
    else .error .invalidData

/-- `write_bulk_string`: `$` ++ decimal byte length ++ CRLF ++ payload ++ CRLF.
The source receives a Rust `String` and writes its bytes; the embedding takes
the byte sequence directly so the emitted frame can be stated for arbitrary
byte content. -/
def write_bulk_string (s : Bytes) : Bytes :=
  36 :: nat_to_decimal s.length ++ [13, 10] ++ s ++ [13, 10]

/-- Modelled from the spec: `write_bulk_string_opt` (§4.2, used by
`handle_get`; the trait impl is absent from `src/`): `Some` writes a bulk
string, `None` writes the null bulk string `$-1\r\n`. -/
def write_bulk_string_opt : Option Bytes → Bytes
  | some s => write_bulk_string s
  | none => [36, 45, 49, 13, 10]

/-! ## Dataset layer (`src/database.rs`) -/

/-- `HashMap::insert`: later insertions overwrite earlier ones. -/
def map_insert {α : Type} (m : Bytes → Option α) (k : Bytes) (v : α) :
    Bytes → Option α :=
  fun q => if q = k then some v else m q

/-- `HashMap::remove`. -/
def map_remove {α : Type} (m : Bytes → Option α) (k : Bytes) :
    Bytes → Option α :=
  fun q => if q = k then none else m q

/-- `database::Value`: the only implemented tag is `String`. -/
inductive Value where
  | string (data : Bytes)
  deriving DecidableEq, Repr

/-- `database::Dataset`: the `data` mapping and the sparse `expiry` mapping.
Expiry instants are milliseconds since the UNIX epoch. -/
structure Dataset where
  data : Bytes → Option Value
  expiry : Bytes → Option Nat

namespace Dataset

/-- `Dataset::new()`. -/
def new : Dataset := ⟨fun _ => none, fun _ => none⟩

/-- `Dataset::get`: if an expiry entry exists and is strictly earlier than the
current time, the key reads as absent; otherwise the `data` entry.  `now` is
the value `SystemTime::now()` returns at the read. -/
def get (ds : Dataset) (key : Bytes) (now : Nat) : Option Value :=
  match ds.expiry key with
  | some e => if e < now then none else ds.data key
  | none => ds.data key

/-- `Dataset::set`: upsert into `data`. -/
def set (ds : Dataset) (key : Bytes) (v : Value) : Dataset :=
  { ds with data := map_insert ds.data key v }

/-- `Dataset::set_expiry`: upsert into `expiry`. -/
def set_expiry (ds : Dataset) (key : Bytes) (e : Nat) : Dataset :=
  { ds with expiry := map_insert ds.expiry key e }

/-- `Dataset::unset_expiry`: remove from `expiry`. -/
def unset_expiry (ds : Dataset) (key : Bytes) : Dataset :=
  { ds with expiry := map_remove ds.expiry key }

end Dataset

/-! ## Command argument parsing and handlers (`src/connection.rs`) -/

/-- ASCII case folding of one byte (`A`-`Z` to `a`-`z`). -/
def ascii_lower_byte (b : Nat) : Nat := if 65 ≤ b && b ≤ 90 then b + 32 else b

/-- ASCII-lowercase form of a token, the form compared against the
all-ASCII named-argument names of the command table. -/
def ascii_lower (s : Bytes) : Bytes := s.map ascii_lower_byte

/-- `connection::ParsedArgs`: positional arguments in order, plus the named
arguments as a map from (lowercase) name to its consumed values. -/
structure ParsedArgs where
  args : List Bytes
  named : Bytes → Option (List Bytes)

/-- The token-consuming loop of `parse_args`: pop the front token, fold it to
lowercase and look it up in `named_argc`; a hit with count `k` fails when
fewer than `k` tokens remain and otherwise consumes the next `k` tokens as the
argument's values (overwriting any earlier occurrence); a miss appends the
token to the positional arguments. -/
def parse_args_loop (named_argc : Bytes → Option Nat) (args : List Bytes)
    (named : Bytes → Option (List Bytes)) :
    List Bytes → Option ParsedArgs
  | [] => some ⟨args, named⟩
  | arg :: rest =>
    match named_argc (ascii_lower arg) with
    | some k =>
      if rest.length < k then none
      else
        parse_args_loop named_argc args
          (map_insert named (ascii_lower arg) (rest.take k)) (rest.drop k)
    | none => parse_args_loop named_argc (args ++ [arg]) named rest
  termination_by l => l.length
  decreasing_by
  all_goals simp [List.length_drop]
  omega

/-- `connection::parse_args`: require at least `leading_argc` tokens, drain
them as positional arguments, then run the named-argument loop. -/
def parse_args (leading_argc : Nat) (named_argc : Bytes → Option Nat)
    (tokens : List Bytes) : Option ParsedArgs :=
  if tokens.length < leading_argc then none
  else
    parse_args_loop named_argc (tokens.take leading_argc) (fun _ => none)
      (tokens.drop leading_argc)

/-- The named-argument table of the `set` spec: `named("px", 1)`. -/
def set_named_argc : Bytes → Option Nat :=
  fun s => if s = [112, 120] then some 1 else none

/-- `Connection::handle_get`, up to its reply: look the key up under the
reader lock and reply with the value bytes or the null bulk string. -/
def handle_get (ds : Dataset) (key : Bytes) (now : Nat) : Bytes :=
  write_bulk_string_opt
    (match ds.get key now with
     | some (Value.string data) => some data
     | none => none)

/-- The `PX` value conversion in `handle_set`:
`std::str::from_utf8(&px[0])?` then `.parse::<u64>()?`. -/
def parse_u64_arg (s : Bytes) : Option Nat :=
  if valid_utf8 s then parse_usize s else none

/-- `Connection::handle_set`, up to its `+OK` reply: convert the `PX` value
first (any failure returns the error before the write lock is taken, leaving
the dataset untouched), then under the write lock set or clear the expiry and
unconditionally store the value.  `px` is `named_args.get("px")` applied to
its single value; `now` is the clock reading when the handler runs. -/
def handle_set (ds : Dataset) (key value : Bytes) (px : Option Bytes)
    (now : Nat) : Except Err Dataset :=
  match px with
  | some pxv =>
    match parse_u64_arg pxv with
    | none => .error .invalidData
    | some t =>
      .ok ((ds.set_expiry key (now + t)).set key (Value.string value))
  | none => .ok ((ds.unset_expiry key).set key (Value.string value))

/-! ## RDB snapshot decoder (`src/rdb.rs`) -/

/-- `rdb::Length`: a decoded length prefix. -/
inductive Length where
  | Normal (n : Nat)
  | Special (m : Nat)
  deriving DecidableEq, Repr

/-- `read_length`: one byte; its top two bits (`first / 64` for a byte value)
select the encoding and its low six bits (`first % 64`) carry data.
`00` → `Normal(first)` (the source leaves the byte unmasked); `01` → six bits
shifted left eight, or-ed with the next byte; `10` → the next four bytes as a
little-endian `u32`; `11` → `Special(low six bits)`. -/
def read_length (s : Bytes) : Except Err (Length × Bytes) :=
  match read_u8 s with
  | .error e => .error e
  | .ok (first, rest) =>
    if first / 64 = 0 then .ok (.Normal first, rest)
    else if first / 64 = 1 then
      match read_u8 rest with
      | .error e => .error e
      | .ok (second, r2) => .ok (.Normal ((first % 64) * 256 + second), r2)
    else if first / 64 = 2 then
      match read_u32 rest with
      | .error e => .error e
      | .ok (n, r2) => .ok (.Normal n, r2)
    else .ok (.Special (first % 64), rest)

/-- `read_string`: a length prefix, then `Normal(len)` reads `len` raw bytes
while `Special(0|1|2)` reads the 1/2/4 raw bytes of an integer-encoded string;
any other `Special` mode is `InvalidData`. -/
def read_string (s : Bytes) : Except Err (Bytes × Bytes) :=
  match read_length s with
  | .error e => .error e
  | .ok (.Normal len, rest) => read_bytes len rest
  | .ok (.Special mode, rest) =>
    if mode = 0 then read_bytes 1 rest
    else if mode = 1 then read_bytes 2 rest
    else if mode = 2 then read_bytes 4 rest
    else .error .invalidData

/-! ## Encoding helpers used to state the round-trip laws -/

/-- Total value of an ASCII digit string, folded left as `parse_digits_aux`
folds it. -/
def digits_val (acc : Nat) : Bytes → Nat
  | [] => acc
  | b :: rest => digits_val (acc * 10 + (b - 48)) rest

/-- The four little-endian bytes of `n` (for `n < 2^32`). -/
def to_le4 (n : Nat) : Bytes :=
  [n % 256, n / 256 % 256, n / 65536 % 256, n / 16777216 % 256]

/-- The eight little-endian bytes of `n` (for `n < 2^64`). -/
def to_le8 (n : Nat) : Bytes :=
  [n % 256, n / 2 ^ 8 % 256, n / 2 ^ 16 % 256, n / 2 ^ 24 % 256,
   n / 2 ^ 32 % 256, n / 2 ^ 40 % 256, n / 2 ^ 48 % 256, n / 2 ^ 56 % 256]

/-- A length-prefix encoding of `n` in the `10` (four-byte) form: the marker
byte `0x80` followed by the four little-endian bytes of `n`. -/
def encode_length_u32 (n : Nat) : Bytes := 128 :: to_le4 n

/-- An RDB string record for `s`: a length prefix then the raw bytes. -/
def enc_string (s : Bytes) : Bytes := encode_length_u32 s.length ++ s

/-- An RDB file exercising the overwrite behaviour of claim C9: header, a
`0xFC` millisecond-expiry record binding `k ↦ v1` with expiry `e`, a plain
`0x00` record rebinding `k ↦ v2`, then the `0xFF` terminator. -/
def c9_stream (k v1 v2 : Bytes) (e : Nat) : Bytes :=
  [82, 69, 68, 73, 83, 48, 48, 48, 51] ++
    252 :: (to_le8 e ++ 0 :: (enc_string k ++ enc_string v1)) ++
    0 :: (enc_string k ++ enc_string v2) ++ [255]

/-- `datasets[current_db]` mutation with `current_db = 0` (the source never
reassigns it): apply `f` to the first dataset of the vector. -/
def modify_db (l : List Dataset) (f : Dataset → Dataset) : List Dataset :=
  match l with
  | [] => []
  | d :: rest => f d :: rest

/-- The opcode loop of `read_rdb`: single opcode bytes drive the state
machine until `0xFF`.  `0x00` inserts a string record; `0xFA` discards an
auxiliary pair; `0xFB` discards two resize hints; `0xFC`/`0xFD` read an
expiry (ms `u64` / s `u32`, stored as ms since epoch), require value type
`0x00`, then set the expiry and insert the record; `0xFE` requires the
selected database to decode to `Normal 0`; any other opcode is an error.
`read_rdb_step` is one iteration of the loop, with `go` the continuation for
the following iterations; `read_rdb_loop` closes the recursion with a fuel
bound that makes it structurally recursive.  Every iteration consumes at
least the opcode byte, so `read_rdb` starts the loop with more fuel than the
stream has bytes and the fuel is never exhausted. -/
def read_rdb_step (go : List Dataset → Bytes → Except Err (List Dataset))
    (datasets : List Dataset) (input : Bytes) : Except Err (List Dataset) :=
  match input with
  | [] => .error .eof
  | opcode :: rest =>
    if opcode = 0 then
      match read_string rest with
      | .error e => .error e
      | .ok (key, r1) =>
        match read_string r1 with
        | .error e => .error e
        | .ok (value, r2) =>
          go (modify_db datasets (fun ds => ds.set key (Value.string value))) r2
    else if opcode = 250 then
      match read_string rest with
      | .error e => .error e
      | .ok (_, r1) =>
        match read_string r1 with
        | .error e => .error e
        | .ok (_, r2) => go datasets r2
    else if opcode = 251 then
      match read_length rest with
      | .error e => .error e
      | .ok (_, r1) =>
        match read_length r1 with
        | .error e => .error e
        | .ok (_, r2) => go datasets r2
    else if opcode = 252 then
      match read_u64 rest with
      | .error e => .error e
      | .ok (expiry, r1) =>
        match read_u8 r1 with
        | .error e => .error e
        | .ok (vt, r2) =>
          if vt = 0 then
            match read_string r2 with
            | .error e => .error e
            | .ok (key, r3) =>
              match read_string r3 with
              | .error e => .error e
              | .ok (value, r4) =>
                go (modify_db datasets (fun ds =>
                    (ds.set_expiry key expiry).set key (Value.string value)))
                  r4
          else .error .notStringValue
    else if opcode = 253 then
      match read_u32 rest with
      | .error e => .error e
      | .ok (expiry, r1) =>
        match read_u8 r1 with
        | .error e => .error e
        | .ok (vt, r2) =>
          if vt = 0 then
            match read_string r2 with
            | .error e => .error e
            | .ok (key, r3) =>
              match read_string r3 with
              | .error e => .error e
              | .ok (value, r4) =>
                go (modify_db datasets (fun ds =>
                    (ds.set_expiry key (expiry * 1000)).set key
                      (Value.string value)))
                  r4
          else .error .notStringValue
    else if opcode = 254 then
      match read_length rest with
      | .error e => .error e
      | .ok (db, r1) =>
        if db = Length.Normal 0 then go datasets r1
        else .error .notDb0
    else if opcode = 255 then .ok datasets
    else .error .badOpcode

/-- The fuel recursion tying `read_rdb_step`'s continuation back to itself;
see the comment above `read_rdb_step`. -/
def read_rdb_loop : Nat → List Dataset → Bytes → Except Err (List Dataset)
  | 0, _, _ => .error .eof
  | fuel + 1, datasets, input => read_rdb_step (read_rdb_loop fuel) datasets input

/-- `read_rdb`: the 5-byte `REDIS` magic, the 4-byte `0003` version, then the
opcode loop starting from a single empty dataset. -/
def read_rdb (input : Bytes) : Except Err (List Dataset) :=
  match read_bytes 5 input with
  | .error e => .error e
  | .ok (magic, r1) =>
    if magic = [82, 69, 68, 73, 83] then
      match read_bytes 4 r1 with
      | .error e => .error e
      | .ok (version, r2) =>
        if version = [48, 48, 48, 51] then
          read_rdb_loop (r2.length + 1) [Dataset.new] r2
        else .error .badVersion
    else .error .badMagic

/-! # Theorems

## Basic facts about the embedded readers -/

theorem read_u8_length {s : Bytes} {b : Nat} {r : Bytes}
    (h : read_u8 s = .ok (b, r)) : r.length < s.length := by
  cases s with
  | nil => simp [read_u8] at h
  | cons x xs => simp [read_u8] at h; simp [← h.2]

theorem read_bytes_spec {n : Nat} {s l r : Bytes}
    (h : read_bytes n s = .ok (l, r)) :
    n ≤ s.length ∧ l = s.take n ∧ r = s.drop n := by
  unfold read_bytes at h
  split at h
  · exact absurd h (by simp)
  · next hlen =>
    simp at h
    exact ⟨by omega, h.1.symm, h.2.symm⟩

theorem read_bytes_length {n : Nat} {s r l : Bytes}
    (h : read_bytes n s = .ok (l, r)) : r.length ≤ s.length := by
  obtain ⟨-, -, hr⟩ := read_bytes_spec h
  subst hr
  simp

/-- `read_bytes` at the exact length of a known leading chunk returns the
chunk and the remainder. -/
theorem read_bytes_exact (l rest : Bytes) :
    read_bytes l.length (l ++ rest) = .ok (l, rest) := by
  unfold read_bytes
  rw [if_neg (by simp)]
  rw [List.take_left, List.drop_left]

theorem read_u32_length {s : Bytes} {n : Nat} {r : Bytes}
    (h : read_u32 s = .ok (n, r)) : r.length < s.length := by
  unfold read_u32 at h
  split at h
  · exact absurd h (by simp)
  · next b rest heq =>
    obtain ⟨hn, -, hr⟩ := read_bytes_spec heq
    simp at h
    obtain ⟨-, h2⟩ := h
    subst h2
    subst hr
    simp
    omega

theorem read_u64_length {s : Bytes} {n : Nat} {r : Bytes}
    (h : read_u64 s = .ok (n, r)) : r.length < s.length := by
  unfold read_u64 at h
  split at h
  · exact absurd h (by simp)
  · next b rest heq =>
    obtain ⟨hn, -, hr⟩ := read_bytes_spec heq
    simp at h
    obtain ⟨-, h2⟩ := h
    subst h2
    subst hr
    simp
    omega

theorem read_length_length {s : Bytes} {l : Length} {r : Bytes}
    (h : read_length s = .ok (l, r)) : r.length < s.length := by
  unfold read_length at h
  split at h
  · exact absurd h (by simp)
  · next first rest heq =>
    have h1 : rest.length < s.length := read_u8_length heq
    split at h
    · simp at h
      obtain ⟨-, h2⟩ := h
      subst h2
      exact h1
    · split at h
      · split at h
        · exact absurd h (by simp)
        · next heq2 =>
          simp at h
          obtain ⟨-, h2⟩ := h
          subst h2
          have := read_u8_length heq2
          omega
      · split at h
        · split at h
          · exact absurd h (by simp)
          · next heq2 =>
            simp at h
            obtain ⟨-, h2⟩ := h
            subst h2
            have := read_u32_length heq2
            omega
        · simp at h
          obtain ⟨-, h2⟩ := h
          subst h2
          exact h1

theorem read_string_length {s : Bytes} {l : Bytes} {r : Bytes}
    (h : read_string s = .ok (l, r)) : r.length < s.length := by
  unfold read_string at h
  split at h
  · exact absurd h (by simp)
  · next len rest heq =>
    have := read_length_length heq
    have := read_bytes_length h
    omega
  · next mode rest heq =>
    have h1 := read_length_length heq
    split at h
    · have := read_bytes_length h; omega
    · split at h
      · have := read_bytes_length h; omega
      · split at h
        · have := read_bytes_length h; omega
        · exact absurd h (by simp)

/-! ## Decimal printing and parsing -/

theorem nat_to_decimal_core_digits :
    ∀ fuel n, ∀ b ∈ nat_to_decimal_core fuel n, 48 ≤ b ∧ b ≤ 57 := by
  intro fuel
  induction fuel with
  | zero => simp [nat_to_decimal_core]
  | succ f ih =>
    intro n b hb
    unfold nat_to_decimal_core at hb
    split at hb
    · next hn =>
      simp at hb
      omega
    · simp at hb
      rcases hb with hb | hb
      · exact ih _ b hb
      · have : n % 10 < 10 := Nat.mod_lt _ (by omega)
        omega

theorem nat_to_decimal_digits (n : Nat) :
    ∀ b ∈ nat_to_decimal n, 48 ≤ b ∧ b ≤ 57 :=
  nat_to_decimal_core_digits (n + 1) n

theorem nat_to_decimal_ne_nil (n : Nat) : nat_to_decimal n ≠ [] := by
  unfold nat_to_decimal nat_to_decimal_core
  split
  · simp
  · simp

theorem parse_digits_aux_eq :
    ∀ (l : Bytes), (∀ b ∈ l, 48 ≤ b ∧ b ≤ 57) → ∀ acc,
      parse_digits_aux acc l = some (digits_val acc l) := by
  intro l
  induction l with
  | nil => intro _ acc; rfl
  | cons b t ih =>
    intro h acc
    have hb := h b (by simp)
    have hcond : (48 ≤ b && b ≤ 57) = true := by
      simp only [Bool.and_eq_true, decide_eq_true_eq]
      omega
    have e1 : parse_digits_aux acc (b :: t) =
        if 48 ≤ b && b ≤ 57 then parse_digits_aux (acc * 10 + (b - 48)) t
        else none := rfl
    have e2 : digits_val acc (b :: t) = digits_val (acc * 10 + (b - 48)) t := rfl
    rw [e1, e2, if_pos hcond]
    exact ih (fun c hc => h c (by simp [hc])) _

theorem digits_val_append :
    ∀ (xs ys : Bytes) (acc : Nat),
      digits_val acc (xs ++ ys) = digits_val (digits_val acc xs) ys := by
  intro xs
  induction xs with
  | nil => intro ys acc; rfl
  | cons b t ih =>
    intro ys acc
    have e1 : digits_val acc ((b :: t) ++ ys) =
        digits_val (acc * 10 + (b - 48)) (t ++ ys) := rfl
    have e2 : digits_val acc (b :: t) = digits_val (acc * 10 + (b - 48)) t := rfl
    rw [e1, e2, ih]

theorem digits_val_core :
    ∀ (fuel n acc : Nat), n < fuel →
      digits_val acc (nat_to_decimal_core fuel n) =
        acc * 10 ^ (nat_to_decimal_core fuel n).length + n := by
  intro fuel
  induction fuel with
  | zero => intro n acc h; omega
  | succ f ih =>
    intro n acc h
    have estep : nat_to_decimal_core (f + 1) n =
        if n < 10 then [n + 48]
        else nat_to_decimal_core f (n / 10) ++ [n % 10 + 48] := rfl
    rw [estep]
    split
    · next hn =>
      have d1 : digits_val acc [n + 48] = acc * 10 + (n + 48 - 48) := rfl
      have d2 : ([n + 48] : Bytes).length = 1 := rfl
      rw [d1, d2, pow_one]
      omega
    · next hn =>
      have hdiv : n / 10 < f := by omega
      rw [digits_val_append, ih _ _ hdiv]
      have hone : digits_val (acc * 10 ^ (nat_to_decimal_core f (n / 10)).length + n / 10)
          [n % 10 + 48] =
          (acc * 10 ^ (nat_to_decimal_core f (n / 10)).length + n / 10) * 10 +
            (n % 10 + 48 - 48) := rfl
      rw [hone, List.length_append]
      simp only [List.length_cons, List.length_nil]
      rw [pow_succ, ← mul_assoc]
      generalize acc * 10 ^ (nat_to_decimal_core f (n / 10)).length = A
      omega

theorem strip_plus_sign_of_head_ne (s : Bytes) (h : ∀ rest, s ≠ 43 :: rest) :
    strip_plus_sign s = s := by
  unfold strip_plus_sign
  split
  · next rest => exact absurd rfl (h rest)
  · rfl

theorem parse_usize_nat_to_decimal (n : Nat) (h : n < 2 ^ 64) :
    parse_usize (nat_to_decimal n) = some n := by
  have hd := nat_to_decimal_digits n
  have hne := nat_to_decimal_ne_nil n
  have hsp : strip_plus_sign (nat_to_decimal n) = nat_to_decimal n := by
    refine strip_plus_sign_of_head_ne _ (fun rest hr => ?_)
    have := hd 43 (by rw [hr]; simp)
    omega
  have hval : digits_val 0 (nat_to_decimal n) = n := by
    have := digits_val_core (n + 1) n 0 (by omega)
    simpa [nat_to_decimal] using this
  unfold parse_usize
  rw [hsp, parse_digits_aux_eq _ hd 0, hval]
  cases hc : nat_to_decimal n with
  | nil => exact absurd hc hne
  | cons b t =>
    simp [hc]
    omega

/-! ## Line and UTF-8 lemmas -/

theorem valid_utf8_digits :
    ∀ (l : Bytes), (∀ b ∈ l, 48 ≤ b ∧ b ≤ 57) → valid_utf8 l = true := by
  intro l
  induction l with
  | nil => intro _; rfl
  | cons b t ih =>
    intro h
    obtain ⟨hlo, hhi⟩ := h b (by simp)
    have step : valid_utf8 (b :: t) = valid_utf8 t := by
      interval_cases b <;> rfl
    rw [step]
    exact ih (fun c hc => h c (by simp [hc]))

theorem read_line_bytes_append (xs ys : Bytes) (h : ∀ b ∈ xs, b ≠ 13) :
    read_line_bytes (xs ++ 13 :: 10 :: ys) = .ok (xs, ys) := by
  induction xs with
  | nil => simp [read_line_bytes]
  | cons b t ih =>
    have hb : b ≠ 13 := h b (by simp)
    show read_line_bytes (b :: (t ++ 13 :: 10 :: ys)) = .ok (b :: t, ys)
    unfold read_line_bytes
    rw [if_neg (by simp [hb])]
    rw [ih (fun c hc => h c (by simp [hc]))]

/-! ## RESP bulk-string round trip -/

theorem read_line_decimal (n : Nat) (ys : Bytes) :
    read_line (nat_to_decimal n ++ 13 :: 10 :: ys) = .ok (nat_to_decimal n, ys) := by
  have hd := nat_to_decimal_digits n
  have hline : read_line_bytes (nat_to_decimal n ++ 13 :: 10 :: ys) =
      .ok (nat_to_decimal n, ys) :=
    read_line_bytes_append _ _ (fun b hb => by have := hd b hb; omega)
  unfold read_line
  rw [hline]
  simp [valid_utf8_digits _ hd]

theorem parse_int_usize_decimal (n : Nat) (h : n < 2 ^ 64) (ys : Bytes) :
    parse_int_usize (nat_to_decimal n ++ 13 :: 10 :: ys) = .ok (n, ys) := by
  unfold parse_int_usize
  rw [read_line_decimal n ys]
  simp [parse_usize_nat_to_decimal n h]

theorem read_bytes_exact' {n : Nat} (l rest : Bytes) (h : l.length = n) :
    read_bytes n (l ++ rest) = .ok (l, rest) := by
  subst h
  exact read_bytes_exact l rest

theorem parse_bulk_string_roundtrip (s rest : Bytes) (h1 : valid_utf8 s = true)
    (h2 : s.length < 2 ^ 64) :
    parse_bulk_string (nat_to_decimal s.length ++ 13 :: 10 :: (s ++ 13 :: 10 :: rest)) =
      .ok (s, rest) := by
  unfold parse_bulk_string
  rw [parse_int_usize_decimal s.length h2 (s ++ 13 :: 10 :: rest)]
  have e2 : (13 : Nat) :: 10 :: rest = [13, 10] ++ rest := rfl
  have e3 : read_bytes 2 (13 :: 10 :: rest) = .ok ([13, 10], rest) := by
    unfold read_bytes
    rw [if_neg (by simp)]
    rfl
  rw [e2]
  simp only [read_bytes_exact' s ([13, 10] ++ rest) rfl, h1]
  rw [← e2, e3]
  simp

/-- **C1, counterexample.**  The claimed round trip fails for non-UTF-8 byte
strings: for `s = [0xFF]` the emitted frame `$1\r\n\xFF\r\n` is rejected by
the decoder with `InvalidData` (the source's `parse_bulk_string` runs
`String::from_utf8` on the payload), so decoding does not yield `String(s)`. -/
theorem parse_bulk_string_rejects_non_utf8 :
    read_value (write_bulk_string [255]) = .error .invalidData ∧
    read_value (write_bulk_string [255]) ≠
      .ok (.string [255], []) := by
  refine ⟨rfl, ?_⟩
  intro h
  rw [show read_value (write_bulk_string [255]) = .error .invalidData from rfl] at h
  exact absurd h (by simp)

/-- **C1, amended.**  RESP bulk-string round trip for every byte string the
source can write (a Rust `String`, hence valid UTF-8; its length always fits
`usize`): decoding the bytes of `write_bulk_string s` yields `String s` and
consumes exactly the frame, leaving any following bytes unread. -/
theorem write_bulk_string_roundtrip (s rest : Bytes) (h1 : valid_utf8 s = true)
    (h2 : s.length < 2 ^ 64) :
    read_value (write_bulk_string s ++ rest) = .ok (.string s, rest) := by
  have hb : write_bulk_string s ++ rest =
      36 :: (nat_to_decimal s.length ++ 13 :: 10 :: (s ++ 13 :: 10 :: rest)) := by
    unfold write_bulk_string
    simp
  rw [hb]
  unfold read_value read_u8
  simp [parse_bulk_string_roundtrip s rest h1 h2]

/-- **C1, witness.**  The round trip evaluated at the concrete string `"hi"`
(bytes `[104, 105]`) with an empty remainder. -/
theorem write_bulk_string_roundtrip_witness :
    valid_utf8 [104, 105] = true ∧ ([104, 105] : Bytes).length < 2 ^ 64 ∧
    read_value (write_bulk_string [104, 105] ++ []) =
      .ok (.string [104, 105], []) :=
  ⟨rfl, by decide, write_bulk_string_roundtrip [104, 105] [] rfl (by decide)⟩

/-! ## Dataset reads, expiry visibility, SET semantics -/

theorem dataset_get_none_of_data_none (ds : Dataset) (key : Bytes) (now : Nat)
    (h : ds.data key = none) : ds.get key now = none := by
  unfold Dataset.get
  split
  · split
    · rfl
    · exact h
  · exact h

theorem handle_get_null_of_get_none (ds : Dataset) (key : Bytes) (now : Nat)
    (h : ds.get key now = none) : handle_get ds key now = [36, 45, 49, 13, 10] := by
  unfold handle_get
  rw [h]
  rfl

/-- **C2, counterexample.**  At the instant `now = expiry` the read still
returns the value: `Dataset::get` hides the key only when `expiry < now`
holds strictly (`if expiry < &SystemTime::now()`), so the claim's "absent
whenever now ≥ expiry" fails at equality.  Concretely, a dataset whose key
`[107]` expires at instant `5` still serves the value when read at `5`. -/
theorem dataset_get_at_exact_expiry :
    Dataset.get
      ⟨map_insert (fun _ => none) [107] (.string [118]),
       map_insert (fun _ => none) [107] 5⟩ [107] 5 = some (.string [118]) := rfl

/-- **C2, amended.**  Expiry visibility with the strict boundary the code
implements: for a key with an expiry entry, a read returns absent whenever
the current time is strictly greater than the stored instant; and `GET`
replies with the null bulk string `$-1\r\n` when the key is missing from
`data` or when its expiry has strictly passed. -/
theorem dataset_get_expiry_visibility :
    ∀ (ds : Dataset) (key : Bytes) (now e : Nat),
      (ds.expiry key = some e → e < now → ds.get key now = none) ∧
      (ds.data key = none → handle_get ds key now = [36, 45, 49, 13, 10]) ∧
      (ds.expiry key = some e → e < now →
        handle_get ds key now = [36, 45, 49, 13, 10]) := by
  intro ds key now e
  have habs : ds.expiry key = some e → e < now → ds.get key now = none := by
    intro he hlt
    unfold Dataset.get
    rw [he]
    simp [hlt]
  refine ⟨habs, ?_, ?_⟩
  · intro hd
    exact handle_get_null_of_get_none ds key now (dataset_get_none_of_data_none ds key now hd)
  · intro he hlt
    exact handle_get_null_of_get_none ds key now (habs he hlt)

/-- **C2, witness.**  The amended visibility law at a concrete dataset: key
`[107]` with expiry instant `5` read at time `6` is absent, and `GET` on an
empty dataset replies the null bulk string. -/
theorem dataset_get_expiry_visibility_witness :
    Dataset.get
      ⟨map_insert (fun _ => none) [107] (.string [118]),
       map_insert (fun _ => none) [107] 5⟩ [107] 6 = none ∧
    handle_get ⟨fun _ => none, fun _ => none⟩ [107] 0 = [36, 45, 49, 13, 10] :=
  ⟨(dataset_get_expiry_visibility
      ⟨map_insert (fun _ => none) [107] (.string [118]),
       map_insert (fun _ => none) [107] 5⟩ [107] 6 5).1 rfl (by decide),
   (dataset_get_expiry_visibility ⟨fun _ => none, fun _ => none⟩ [107] 0 0).2.1 rfl⟩

/-- **C3.**  `SET` semantics: the handler unconditionally stores
`data[key] = value`; with `PX` parsing to `t` it sets
`expiry[key] = now + t`; without `PX` it removes any prior expiry entry.
All other keys are untouched. -/
theorem handle_set_semantics :
    ∀ (ds : Dataset) (key value : Bytes) (now : Nat),
      (∃ ds1, handle_set ds key value none now = .ok ds1 ∧
        ds1.data key = some (.string value) ∧ ds1.expiry key = none ∧
        (∀ k, k ≠ key → ds1.data k = ds.data k ∧ ds1.expiry k = ds.expiry k)) ∧
      (∀ pxv t, parse_u64_arg pxv = some t →
        ∃ ds2, handle_set ds key value (some pxv) now = .ok ds2 ∧
          ds2.data key = some (.string value) ∧
          ds2.expiry key = some (now + t) ∧
          (∀ k, k ≠ key → ds2.data k = ds.data k ∧ ds2.expiry k = ds.expiry k)) := by
  intro ds key value now
  constructor
  · refine ⟨(ds.unset_expiry key).set key (.string value), rfl, ?_, ?_, ?_⟩
    · simp [Dataset.set, Dataset.unset_expiry, map_insert]
    · simp [Dataset.set, Dataset.unset_expiry, map_remove]
    · intro k hk
      simp [Dataset.set, Dataset.unset_expiry, map_insert, map_remove, hk]
  · intro pxv t hpx
    refine ⟨(ds.set_expiry key (now + t)).set key (.string value), ?_, ?_, ?_, ?_⟩
    · simp only [handle_set, hpx]
    · simp [Dataset.set, Dataset.set_expiry, map_insert]
    · simp [Dataset.set, Dataset.set_expiry, map_insert]
    · intro k hk
      simp [Dataset.set, Dataset.set_expiry, map_insert, hk]

/-- **C3, witness.**  `SET` on the empty dataset at time `3`: plain `SET`
stores the value with no expiry; `SET ... PX 5` (value bytes `"5"`) stores
the value and sets the expiry to `3 + 5`. -/
theorem handle_set_semantics_witness :
    (∃ ds1, handle_set Dataset.new [107] [118] none 3 = .ok ds1 ∧
      ds1.data [107] = some (.string [118]) ∧ ds1.expiry [107] = none ∧
      (∀ k, k ≠ [107] → ds1.data k = Dataset.new.data k ∧
        ds1.expiry k = Dataset.new.expiry k)) ∧
    parse_u64_arg [53] = some 5 ∧
    (∃ ds2, handle_set Dataset.new [107] [118] (some [53]) 3 = .ok ds2 ∧
      ds2.data [107] = some (.string [118]) ∧ ds2.expiry [107] = some (3 + 5) ∧
      (∀ k, k ≠ [107] → ds2.data k = Dataset.new.data k ∧
        ds2.expiry k = Dataset.new.expiry k)) :=
  ⟨(handle_set_semantics Dataset.new [107] [118] 3).1, rfl,
   (handle_set_semantics Dataset.new [107] [118] 3).2 [53] 5 rfl⟩

/-- **C8.**  A `SET` whose `PX` value is not a valid ASCII-decimal `u64`
(invalid UTF-8 or unparsable number) makes the handler return an error; the
conversion happens before the write lock is taken (the embedding returns the
updated dataset only on success), so the dataset is left completely
unchanged. -/
theorem handle_set_malformed_px :
    ∀ (ds : Dataset) (key value pxv : Bytes) (now : Nat),
      parse_u64_arg pxv = none →
      handle_set ds key value (some pxv) now = .error .invalidData := by
  intro ds key value pxv now h
  simp only [handle_set, h]

/-- **C8, witness.**  `SET k v PX 12a`: the PX bytes `"12a"` do not parse,
and the handler errors on the empty dataset. -/
theorem handle_set_malformed_px_witness :
    parse_u64_arg [49, 50, 97] = none ∧
    handle_set Dataset.new [107] [118] (some [49, 50, 97]) 9 =
      .error .invalidData :=
  ⟨rfl, handle_set_malformed_px Dataset.new [107] [118] [49, 50, 97] 9 rfl⟩

/-! ## Argument parsing -/

theorem parse_args_loop_nil (named : Bytes → Option Nat) (args : List Bytes)
    (acc : Bytes → Option (List Bytes)) :
    parse_args_loop named args acc [] = some ⟨args, acc⟩ := by
  simp [parse_args_loop]

theorem parse_args_loop_unmatched (named : Bytes → Option Nat) (args : List Bytes)
    (acc : Bytes → Option (List Bytes)) (t : Bytes) (rest : List Bytes)
    (h : named (ascii_lower t) = none) :
    parse_args_loop named args acc (t :: rest) =
      parse_args_loop named (args ++ [t]) acc rest := by
  rw [parse_args_loop]
  simp [h]

theorem parse_args_loop_matched (named : Bytes → Option Nat) (args : List Bytes)
    (acc : Bytes → Option (List Bytes)) (t : Bytes) (rest : List Bytes) (k : Nat)
    (hk : named (ascii_lower t) = some k) (hle : k ≤ rest.length) :
    parse_args_loop named args acc (t :: rest) =
      parse_args_loop named args (map_insert acc (ascii_lower t) (rest.take k))
        (rest.drop k) := by
  rw [parse_args_loop]
  simp [hk]
  omega

theorem parse_args_loop_matched_fail (named : Bytes → Option Nat) (args : List Bytes)
    (acc : Bytes → Option (List Bytes)) (t : Bytes) (rest : List Bytes) (k : Nat)
    (hk : named (ascii_lower t) = some k) (hgt : rest.length < k) :
    parse_args_loop named args acc (t :: rest) = none := by
  rw [parse_args_loop]
  simp [hk]
  omega

theorem parse_args_loop_args_grow :
    ∀ (n : Nat) (u : List Bytes), u.length ≤ n →
      ∀ (named : Bytes → Option Nat) (args : List Bytes)
        (acc : Bytes → Option (List Bytes)) (pa : ParsedArgs),
        parse_args_loop named args acc u = some pa →
        ∃ extra, pa.args = args ++ extra := by
  intro n
  induction n with
  | zero =>
    intro u hu named args acc pa h
    cases u with
    | nil =>
      rw [parse_args_loop_nil] at h
      refine ⟨[], ?_⟩
      cases h
      simp
    | cons t rest => simp at hu
  | succ m ih =>
    intro u hu named args acc pa h
    cases u with
    | nil =>
      rw [parse_args_loop_nil] at h
      refine ⟨[], ?_⟩
      cases h
      simp
    | cons t rest =>
      cases hmk : named (ascii_lower t) with
      | none =>
        rw [parse_args_loop_unmatched _ _ _ _ _ hmk] at h
        obtain ⟨extra, he⟩ :=
          ih rest (by simp at hu; omega) named (args ++ [t]) acc pa h
        exact ⟨[t] ++ extra, by rw [he]; simp⟩
      | some k =>
        by_cases hle : k ≤ rest.length
        · rw [parse_args_loop_matched _ _ _ _ _ _ hmk hle] at h
          obtain ⟨extra, he⟩ :=
            ih (rest.drop k) (by simp at hu ⊢; omega) named args _ pa h
          exact ⟨extra, he⟩
        · rw [parse_args_loop_matched_fail _ _ _ _ _ _ hmk (by omega)] at h
          exact absurd h (by simp)

/-- **C5.**  Argument parsing: (1) with fewer than `leading_argc` tokens the
parse fails; (2) on success the positional arguments start with the first
`leading_argc` tokens; (3) a trailing token whose ASCII-lowercase form names
a known named argument of count `k` fails the parse when fewer than `k`
tokens remain, and (4) otherwise consumes the next `k` tokens as that
argument's values; (5) a non-matching trailing token is appended to the
positional arguments rather than rejected. -/
theorem parse_args_spec :
    (∀ (leading : Nat) (named : Bytes → Option Nat) (tokens : List Bytes),
       tokens.length < leading → parse_args leading named tokens = none) ∧
    (∀ (leading : Nat) (named : Bytes → Option Nat) (tokens : List Bytes)
       (pa : ParsedArgs), parse_args leading named tokens = some pa →
       ∃ extra, pa.args = tokens.take leading ++ extra) ∧
    (∀ (named : Bytes → Option Nat) (args : List Bytes)
       (acc : Bytes → Option (List Bytes)) (t : Bytes) (rest : List Bytes)
       (k : Nat), named (ascii_lower t) = some k → rest.length < k →
       parse_args_loop named args acc (t :: rest) = none) ∧
    (∀ (named : Bytes → Option Nat) (args : List Bytes)
       (acc : Bytes → Option (List Bytes)) (t : Bytes) (rest : List Bytes)
       (k : Nat), named (ascii_lower t) = some k → k ≤ rest.length →
       parse_args_loop named args acc (t :: rest) =
         parse_args_loop named args
           (map_insert acc (ascii_lower t) (rest.take k)) (rest.drop k)) ∧
    (∀ (named : Bytes → Option Nat) (args : List Bytes)
       (acc : Bytes → Option (List Bytes)) (t : Bytes) (rest : List Bytes),
       named (ascii_lower t) = none →
       parse_args_loop named args acc (t :: rest) =
         parse_args_loop named (args ++ [t]) acc rest) := by
  refine ⟨?_, ?_, ?_, ?_, ?_⟩
  · intro leading named tokens h
    unfold parse_args
    rw [if_pos h]
  · intro leading named tokens pa h
    unfold parse_args at h
    split at h
    · exact absurd h (by simp)
    · exact parse_args_loop_args_grow (tokens.drop leading).length _ le_rfl
        named _ _ pa h
  · intro named args acc t rest k hk hgt
    exact parse_args_loop_matched_fail named args acc t rest k hk hgt
  · intro named args acc t rest k hk hle
    exact parse_args_loop_matched named args acc t rest k hk hle
  · intro named args acc t rest h
    exact parse_args_loop_unmatched named args acc t rest h

/-- **C5, witness.**  The parsing rules at concrete inputs, using the `set`
command's named-argument table (`px` taking one value): too few leading
tokens fail; a successful parse of `GET`-style tokens keeps the leading
token first; a trailing `PX` with no value fails; `PX 1` consumes its value;
an unknown trailing token is appended to the positionals. -/
theorem parse_args_spec_witness :
    parse_args 3 set_named_argc [[97]] = none ∧
    (∃ extra, ([[97], [98]] : List Bytes) = ([[97], [98]] : List Bytes).take 1 ++ extra) ∧
    parse_args_loop set_named_argc [] (fun _ => none) [[80, 88]] = none ∧
    parse_args_loop set_named_argc [] (fun _ => none) [[112, 120], [49]] =
      parse_args_loop set_named_argc []
        (map_insert (fun _ => none) (ascii_lower [112, 120]) ([[49]].take 1))
        ([[49]].drop 1) ∧
    parse_args_loop set_named_argc [] (fun _ => none) [[97]] =
      parse_args_loop set_named_argc ([] ++ [[97]]) (fun _ => none) [] :=
  ⟨parse_args_spec.1 3 set_named_argc [[97]] (by decide),
   parse_args_spec.2.1 1 set_named_argc [[97], [98]]
     ⟨[[97], [98]], fun _ => none⟩
     (by simp [parse_args, parse_args_loop, set_named_argc, ascii_lower,
        ascii_lower_byte]),
   parse_args_spec.2.2.1 set_named_argc [] (fun _ => none) [80, 88] [] 1 rfl
     (by decide),
   parse_args_spec.2.2.2.1 set_named_argc [] (fun _ => none) [112, 120] [[49]] 1
     rfl (by decide),
   parse_args_spec.2.2.2.2 set_named_argc [] (fun _ => none) [97] [] rfl⟩

/-- **C10.**  Duplicate named arguments: when the same name appears twice
among the trailing tokens (after ASCII case folding), only the values of the
last occurrence are kept; the earlier occurrence's values are discarded and
do not leak into the positional arguments. -/
theorem parse_args_last_named_wins :
    ∀ (named : Bytes → Option Nat) (lead : List Bytes) (t1 : Bytes)
      (v1 : List Bytes) (t2 : Bytes) (v2 : List Bytes) (k : Nat),
      named (ascii_lower t1) = some k →
      ascii_lower t2 = ascii_lower t1 →
      v1.length = k → v2.length = k →
      ∃ pa,
        parse_args lead.length named (lead ++ t1 :: (v1 ++ t2 :: v2)) =
          some pa ∧
        pa.args = lead ∧
        pa.named (ascii_lower t1) = some v2 ∧
        (∀ nm, nm ≠ ascii_lower t1 → pa.named nm = none) := by
  intro named lead t1 v1 t2 v2 k hk hl2 hv1 hv2
  unfold parse_args
  rw [if_neg (by rw [List.length_append]; omega)]
  rw [List.take_left, List.drop_left]
  rw [parse_args_loop_matched _ _ _ _ _ _ hk
    (by rw [List.length_append]; omega)]
  rw [List.take_left' hv1, List.drop_left' hv1]
  rw [parse_args_loop_matched _ _ _ _ _ _ (by rw [hl2]; exact hk) (by omega)]
  rw [hl2, ← hv2, List.take_length, List.drop_length]
  rw [parse_args_loop_nil]
  refine ⟨_, rfl, rfl, ?_, ?_⟩
  · simp [map_insert]
  · intro nm hnm
    simp [map_insert, hnm]

/-- **C10, witness.**  `... PX 1 px 2` with the `set` table: the parse
succeeds, the positionals stay empty, `px` maps to the value `"2"` of the
last occurrence, and the value `"1"` of the first occurrence is gone. -/
theorem parse_args_last_named_wins_witness :
    ∃ pa,
      parse_args ([] : List Bytes).length set_named_argc
        ([] ++ [80, 88] :: ([[49]] ++ [112, 120] :: [[50]])) = some pa ∧
      pa.args = [] ∧
      pa.named (ascii_lower [80, 88]) = some [[50]] ∧
      (∀ nm, nm ≠ ascii_lower [80, 88] → pa.named nm = none) :=
  parse_args_last_named_wins set_named_argc [] [80, 88] [[49]] [112, 120]
    [[50]] 1 rfl rfl rfl rfl

/-! ## RDB length-prefix and string encodings -/

theorem read_u32_le4 (n : Nat) (rest : Bytes) (h : n < 2 ^ 32) :
    read_u32 (to_le4 n ++ rest) = .ok (n, rest) := by
  have hval : le_value (to_le4 n) = n := by
    unfold le_value to_le4
    simp [List.foldr]
    omega
  unfold read_u32
  rw [read_bytes_exact' (to_le4 n) rest (show (to_le4 n).length = 4 from rfl)]
  simp [hval]

theorem read_u64_le8 (n : Nat) (rest : Bytes) (h : n < 2 ^ 64) :
    read_u64 (to_le8 n ++ rest) = .ok (n, rest) := by
  have hval : le_value (to_le8 n) = n := by
    unfold le_value to_le8
    simp [List.foldr]
    omega
  unfold read_u64
  rw [read_bytes_exact' (to_le8 n) rest (show (to_le8 n).length = 8 from rfl)]
  simp [hval]

theorem read_length_encode (n : Nat) (rest : Bytes) (h : n < 2 ^ 32) :
    read_length (encode_length_u32 n ++ rest) = .ok (.Normal n, rest) := by
  have e : encode_length_u32 n ++ rest = 128 :: (to_le4 n ++ rest) := by
    simp [encode_length_u32]
  rw [e]
  unfold read_length read_u8
  simp [read_u32_le4 n rest h]

theorem read_string_enc (s : Bytes) (rest : Bytes) (h : s.length < 2 ^ 32) :
    read_string (enc_string s ++ rest) = .ok (s, rest) := by
  have e : enc_string s ++ rest = encode_length_u32 s.length ++ (s ++ rest) := by
    simp [enc_string]
  rw [e]
  unfold read_string
  rw [read_length_encode s.length (s ++ rest) h]
  exact read_bytes_exact s rest

theorem read_bytes_of_le (n : Nat) (s : Bytes) (h : n ≤ s.length) :
    read_bytes n s = .ok (s.take n, s.drop n) := by
  unfold read_bytes
  rw [if_neg (by omega)]

theorem read_string_special (mode : Nat) (hm : mode < 64) (rest : Bytes) :
    read_string ((192 + mode) :: rest) =
      if mode = 0 then read_bytes 1 rest
      else if mode = 1 then read_bytes 2 rest
      else if mode = 2 then read_bytes 4 rest
      else .error .invalidData := by
  have hspec : read_length ((192 + mode) :: rest) = .ok (.Special mode, rest) := by
    unfold read_length read_u8
    have hdiv : (192 + mode) / 64 = 3 := by omega
    have hmod : (192 + mode) % 64 = mode := by omega
    simp [hdiv, hmod]
  unfold read_string
  rw [hspec]

/-- **C4.**  RDB length-prefix round trip: every `u32` value `n` has a valid
encoding — the `10` form `0x80 ‖ n as LE u32` — that `read_length` decodes to
`Normal n`; for `Special k` with `k ∈ {0,1,2}` (marker byte `0xC0 + k`) the
following `read_string` consumes and returns exactly `2^k` bytes; any other
`Special` mode fails with `InvalidData`. -/
theorem read_length_roundtrip_spec :
    (∀ (n : Nat) (rest : Bytes), n < 2 ^ 32 →
       read_length (encode_length_u32 n ++ rest) = .ok (.Normal n, rest)) ∧
    (∀ (k : Nat) (rest : Bytes), k < 3 → 2 ^ k ≤ rest.length →
       read_string ((192 + k) :: rest) =
         .ok (rest.take (2 ^ k), rest.drop (2 ^ k))) ∧
    (∀ (m : Nat) (rest : Bytes), 3 ≤ m → m < 64 →
       read_string ((192 + m) :: rest) = .error .invalidData) := by
  refine ⟨read_length_encode, ?_, ?_⟩
  · intro k rest hk hlen
    rw [read_string_special k (by omega) rest]
    interval_cases k
    · norm_num
      simpa using read_bytes_of_le 1 rest (by simpa using hlen)
    · norm_num
      exact read_bytes_of_le 2 rest (by simpa using hlen)
    · norm_num
      exact read_bytes_of_le 4 rest (by simpa using hlen)
  · intro m rest h3 h64
    rw [read_string_special m (by omega) rest]
    rw [if_neg (by omega), if_neg (by omega), if_neg (by omega)]

/-- **C4, witness.**  `n = 300` with 4-byte encoding `[0x80, 44, 1, 0, 0]`
decodes to `Normal 300`; `Special 1` (byte `0xC1`) makes the string read
return exactly the next `2` bytes; `Special 5` (byte `0xC5`) is rejected. -/
theorem read_length_roundtrip_spec_witness :
    read_length (encode_length_u32 300 ++ [7]) = .ok (.Normal 300, [7]) ∧
    read_string ((192 + 1) :: [9, 8, 7]) =
      .ok (([9, 8, 7] : Bytes).take (2 ^ 1), ([9, 8, 7] : Bytes).drop (2 ^ 1)) ∧
    read_string ((192 + 5) :: [9, 8, 7]) = .error .invalidData :=
  ⟨read_length_roundtrip_spec.1 300 [7] (by decide),
   read_length_roundtrip_spec.2.1 1 [9, 8, 7] (by decide) (by decide),
   read_length_roundtrip_spec.2.2 5 [9, 8, 7] (by decide) (by decide)⟩

/-! ## RDB header gate and dataset invariant -/

/-- **C6.**  `read_rdb` fails whenever the first five bytes are not the
literal `REDIS` (with `UnexpectedEof` when the stream is even shorter, and
`badMagic` otherwise), fails whenever the following four bytes are not the
ASCII version `0003`, and proceeds to the opcode stream — starting from one
empty dataset — exactly when both match. -/
theorem read_rdb_header_gate :
    (∀ input : Bytes, input.take 5 ≠ [82, 69, 68, 73, 83] →
       ∃ e, read_rdb input = .error e) ∧
    (∀ input : Bytes, input.take 5 = [82, 69, 68, 73, 83] →
       (input.drop 5).take 4 ≠ [48, 48, 48, 51] →
       ∃ e, read_rdb input = .error e) ∧
    (∀ input : Bytes, input.take 5 = [82, 69, 68, 73, 83] →
       (input.drop 5).take 4 = [48, 48, 48, 51] →
       read_rdb input =
         read_rdb_loop ((input.drop 9).length + 1) [Dataset.new]
           (input.drop 9)) := by
  refine ⟨?_, ?_, ?_⟩
  · intro input hmag
    by_cases hlen : input.length < 5
    · refine ⟨.eof, ?_⟩
      unfold read_rdb read_bytes
      rw [if_pos hlen]
    · refine ⟨.badMagic, ?_⟩
      unfold read_rdb read_bytes
      rw [if_neg hlen]
      simp [hmag]
  · intro input hmag hver
    have h5 : 5 ≤ input.length := by
      have := congrArg List.length hmag
      simp at this
      omega
    by_cases hlen : (input.drop 5).length < 4
    · refine ⟨.eof, ?_⟩
      unfold read_rdb read_bytes
      rw [if_neg (by omega)]
      simp only [hmag, if_pos]
      rw [if_pos (by simpa using hlen)]
    · refine ⟨.badVersion, ?_⟩
      unfold read_rdb read_bytes
      rw [if_neg (by omega)]
      simp only [hmag, if_pos]
      rw [if_neg (by simpa using hlen)]
      simp [hver]
  · intro input hmag hver
    have h5 : 5 ≤ input.length := by
      have := congrArg List.length hmag
      simp at this
      omega
    have h9 : 9 ≤ input.length := by
      have := congrArg List.length hver
      simp at this
      omega
    unfold read_rdb read_bytes
    rw [if_neg (by omega)]
    simp only [hmag, if_pos]
    rw [if_neg (by simp; omega)]
    simp only [hver, if_pos]
    rw [List.drop_drop]

/-- **C6, witness.**  The three header behaviours at concrete files: a wrong
magic fails, a `REDIS` file with version `0004` fails, and `REDIS0003`
followed by the terminator proceeds to the opcode loop. -/
theorem read_rdb_header_gate_witness :
    (∃ e, read_rdb [66, 65, 68, 33, 33, 48, 48, 48, 51, 255] = .error e) ∧
    (∃ e, read_rdb [82, 69, 68, 73, 83, 48, 48, 48, 52, 255] = .error e) ∧
    read_rdb [82, 69, 68, 73, 83, 48, 48, 48, 51, 255] =
      read_rdb_loop
        ((([82, 69, 68, 73, 83, 48, 48, 48, 51, 255] : Bytes).drop 9).length + 1)
        [Dataset.new]
        (([82, 69, 68, 73, 83, 48, 48, 48, 51, 255] : Bytes).drop 9) :=
  ⟨read_rdb_header_gate.1 [66, 65, 68, 33, 33, 48, 48, 48, 51, 255] (by decide),
   read_rdb_header_gate.2.1 [82, 69, 68, 73, 83, 48, 48, 48, 52, 255] (by decide)
     (by decide),
   read_rdb_header_gate.2.2 [82, 69, 68, 73, 83, 48, 48, 48, 51, 255] (by decide)
     (by decide)⟩

theorem modify_db_length (l : List Dataset) (f : Dataset → Dataset) :
    (modify_db l f).length = l.length := by
  cases l <;> rfl

theorem read_rdb_loop_length :
    ∀ (fuel : Nat) (ds : List Dataset) (input : Bytes) (res : List Dataset),
      read_rdb_loop fuel ds input = .ok res → res.length = ds.length := by
  intro fuel
  induction fuel with
  | zero =>
    intro ds input res h
    exact absurd h (by simp [read_rdb_loop])
  | succ f ih =>
    intro ds input res h
    rw [read_rdb_loop] at h
    unfold read_rdb_step at h
    repeat' split at h
    all_goals try simp at h
    all_goals try (rw [← h])
    all_goals try exact ih _ _ _ h
    all_goals exact (ih _ _ _ h).trans (modify_db_length _ _)

/-- **C7.**  Single-dataset invariant: the decoder starts from exactly one
empty dataset and never changes the length of the dataset vector, so every
successful `read_rdb` returns a vector of length 1; and a `0xFE` select
opcode whose length argument decodes to anything other than `Normal 0` fails
the decode with the only-db-0 error. -/
theorem read_rdb_single_dataset :
    (∀ (input : Bytes) (res : List Dataset),
       read_rdb input = .ok res → res.length = 1) ∧
    (∀ (fuel : Nat) (ds : List Dataset) (rest r1 : Bytes) (db : Length),
       read_length rest = .ok (db, r1) → db ≠ .Normal 0 →
       read_rdb_loop (fuel + 1) ds (254 :: rest) = .error .notDb0) := by
  constructor
  · intro input res h
    unfold read_rdb at h
    repeat' split at h
    all_goals try exact absurd h (by simp)
    exact read_rdb_loop_length _ _ _ _ h
  · intro fuel ds rest r1 db h1 hne
    rw [read_rdb_loop]
    unfold read_rdb_step
    simp [h1, hne]

/-- **C7, witness.**  The minimal snapshot `REDIS0003 0xFF` decodes to a
vector of exactly one dataset, and a `0xFE` opcode selecting database 1
(length bytes `[64, 1]`, decoding to `Normal 1`) fails. -/
theorem read_rdb_single_dataset_witness :
    ([Dataset.new] : List Dataset).length = 1 ∧
    read_rdb_loop 1 [Dataset.new] (254 :: [64, 1]) = .error .notDb0 :=
  ⟨read_rdb_single_dataset.1 [82, 69, 68, 73, 83, 48, 48, 48, 51, 255]
     [Dataset.new] rfl,
   read_rdb_single_dataset.2 0 [Dataset.new] [64, 1] [] (.Normal 1) rfl
     (by decide)⟩

/-! ## RDB loop evaluation on well-formed records -/

theorem read_rdb_header_ok (T : Bytes) :
    read_rdb ([82, 69, 68, 73, 83] ++ ([48, 48, 48, 51] ++ T)) =
      read_rdb_loop (T.length + 1) [Dataset.new] T := by
  unfold read_rdb
  rw [read_bytes_exact' [82, 69, 68, 73, 83] _
    (show ([82, 69, 68, 73, 83] : Bytes).length = 5 from rfl)]
  simp only [if_pos]
  rw [read_bytes_exact' [48, 48, 48, 51] _
    (show ([48, 48, 48, 51] : Bytes).length = 4 from rfl)]
  simp

theorem read_rdb_loop_opff (fuel : Nat) (ds : List Dataset) (rest : Bytes) :
    read_rdb_loop (fuel + 1) ds (255 :: rest) = .ok ds := by
  rw [read_rdb_loop]
  unfold read_rdb_step
  simp

theorem read_rdb_loop_op00 (fuel : Nat) (ds : List Dataset) (k v rest : Bytes)
    (hk : k.length < 2 ^ 32) (hv : v.length < 2 ^ 32) :
    read_rdb_loop (fuel + 1) ds
        (0 :: (enc_string k ++ (enc_string v ++ rest))) =
      read_rdb_loop fuel
        (modify_db ds (fun d => d.set k (Value.string v))) rest := by
  rw [read_rdb_loop]
  simp [read_rdb_step, read_string_enc k (enc_string v ++ rest) hk,
    read_string_enc v rest hv]

theorem read_rdb_loop_opfc (fuel : Nat) (ds : List Dataset) (e : Nat)
    (k v rest : Bytes) (he : e < 2 ^ 64) (hk : k.length < 2 ^ 32)
    (hv : v.length < 2 ^ 32) :
    read_rdb_loop (fuel + 1) ds
        (252 :: (to_le8 e ++ 0 :: (enc_string k ++ (enc_string v ++ rest)))) =
      read_rdb_loop fuel
        (modify_db ds (fun d =>
          (d.set_expiry k e).set k (Value.string v))) rest := by
  rw [read_rdb_loop]
  simp [read_rdb_step, read_u8, read_u64_le8 e _ he,
    read_string_enc k (enc_string v ++ rest) hk, read_string_enc v rest hv]

/-- **C9.**  `Dataset::set` never touches the expiry mapping; consequently,
during RDB decoding, a plain `0x00` record for a key loaded earlier with an
expiry via `0xFC` overwrites the value but leaves the expiry entry in
place: decoding a snapshot with `0xFC (e) k ↦ v1` followed by `0x00 k ↦ v2`
yields a single dataset where `k` holds `v2` and still expires at `e`. -/
theorem dataset_set_expiry_frame :
    (∀ (ds : Dataset) (k : Bytes) (v : Value),
       (ds.set k v).expiry = ds.expiry) ∧
    (∀ (k v1 v2 : Bytes) (e : Nat), e < 2 ^ 64 →
       k.length < 2 ^ 32 → v1.length < 2 ^ 32 → v2.length < 2 ^ 32 →
       ∃ ds, read_rdb (c9_stream k v1 v2 e) = .ok [ds] ∧
         ds.data k = some (.string v2) ∧ ds.expiry k = some e) := by
  constructor
  · intro ds k v
    rfl
  · intro k v1 v2 e he hk hv1 hv2
    refine ⟨((Dataset.new.set_expiry k e).set k (.string v1)).set k (.string v2),
      ?_, ?_, ?_⟩
    · have hstream : c9_stream k v1 v2 e =
          [82, 69, 68, 73, 83] ++ ([48, 48, 48, 51] ++
            (252 :: (to_le8 e ++ 0 :: (enc_string k ++ (enc_string v1 ++
              (0 :: (enc_string k ++ (enc_string v2 ++ [255])))))))) := by
        simp [c9_stream]
      rw [hstream, read_rdb_header_ok]
      have hchain : ∀ m,
          read_rdb_loop (m + 3) [Dataset.new]
            (252 :: (to_le8 e ++ 0 :: (enc_string k ++ (enc_string v1 ++
              (0 :: (enc_string k ++ (enc_string v2 ++ [255]))))))) =
          .ok [((Dataset.new.set_expiry k e).set k (.string v1)).set k
            (.string v2)] := by
        intro m
        rw [show m + 3 = (m + 2) + 1 from rfl]
        rw [read_rdb_loop_opfc (m + 2) [Dataset.new] e k v1 _ he hk hv1]
        rw [show modify_db [Dataset.new]
            (fun d => (d.set_expiry k e).set k (Value.string v1)) =
          [(Dataset.new.set_expiry k e).set k (.string v1)] from rfl]
        rw [show m + 2 = (m + 1) + 1 from rfl]
        rw [read_rdb_loop_op00 (m + 1)
          [(Dataset.new.set_expiry k e).set k (.string v1)] k v2 [255] hk hv2]
        rw [show modify_db [(Dataset.new.set_expiry k e).set k (.string v1)]
            (fun d => d.set k (Value.string v2)) =
          [((Dataset.new.set_expiry k e).set k (.string v1)).set k
            (.string v2)] from rfl]
        exact read_rdb_loop_opff m _ []
      obtain ⟨m, hm⟩ : ∃ m,
          (252 :: (to_le8 e ++ 0 :: (enc_string k ++ (enc_string v1 ++
            (0 :: (enc_string k ++ (enc_string v2 ++ [255]))))))).length + 1 =
          m + 3 := by
        refine ⟨(to_le8 e ++ 0 :: (enc_string k ++ (enc_string v1 ++
          (0 :: (enc_string k ++ (enc_string v2 ++ [255])))))).length - 1, ?_⟩
        simp [to_le8]
      rw [hm]
      exact hchain m
    · simp [Dataset.set, Dataset.set_expiry, map_insert]
    · simp [Dataset.set, Dataset.set_expiry, map_insert]

/-- **C9, witness.**  The scenario at concrete bytes: key `[104]`, first
value `[97]` with millisecond expiry `7`, overwritten by `[98]`; the decoded
dataset holds `[98]` and still expires at `7`. -/
theorem dataset_set_expiry_frame_witness :
    (Dataset.set Dataset.new [104] (.string [97])).expiry = Dataset.new.expiry ∧
    (∃ ds, read_rdb (c9_stream [104] [97] [98] 7) = .ok [ds] ∧
      ds.data [104] = some (.string [98]) ∧ ds.expiry [104] = some 7) :=
  ⟨dataset_set_expiry_frame.1 Dataset.new [104] (.string [97]),
   dataset_set_expiry_frame.2 [104] [97] [98] 7 (by decide) (by decide)
     (by decide) (by decide)⟩
